import Mathlib

/-!
Verification of the MNA (Modified Nodal Analysis) matrix assembler of the
circuit-solver repository.

The embedding translates `src/solvers/node_matrix_solver.rs`,
`src/interfaces.rs` and `src/validation.rs`.  The `Container` / `Node` /
`Element` data model and the symbolic `Operation` algebra live in crates that
are not part of the given sources; they are modelled from the specification
(spec.md sections 3 and 4.2), with each such definition marked
`Modelled from the spec:` in its doc comment.
-/

/-- Element class (`Component` enum in the source): the closed set of solvable
circuit component classes (spec section 3). -/
inductive Component where
  | Resistor
  | VoltageSrc
  | CurrentSrc
deriving DecidableEq, Repr

/-- Modelled from the spec: an `Element` record (spec section 3) — id, class,
scalar value, and the positive / negative terminal-id sets.  The Rust `f64`
value is modelled as a rational: the assembler never performs arithmetic on
it, it only stores it into symbolic cells. -/
structure Element where
  id : Nat
  cls : Component
  value : ℚ
  positive : List Nat
  negative : List Nat
deriving DecidableEq, Repr

/-- Modelled from the spec: a `Node` — dense ordering-significant id plus the
member element terminals (spec section 3). -/
structure Node where
  id : Nat
  members : List Element
deriving DecidableEq, Repr

/-- Modelled from the spec: the `Container` owns the element list and the
derived node list (spec section 3).  Node discovery (`create_nodes`) is not in
the given sources, so the embedding works with containers that already carry
their discovered nodes. -/
structure Container where
  elements : List Element
  nodes : List Node
deriving DecidableEq, Repr

/-- Modelled from the spec: `EquationRepr` — a display label plus a numeric
value, the payload of a named variable (spec section 3, "named variable (a
label plus a numeric value)"). -/
structure EquationRepr where
  label : String
  value : ℚ
deriving DecidableEq, Repr

/-- Modelled from the spec: the symbolic expression algebra `Operation`
(spec section 3): numeric literal, named variable, n-ary sum, unary negation
(optional operand, a "hole"), binary division (optional operands), opaque
text.  `MatrixVariable` models the source's `Variable(Rc::new(matrix))`
wrapping of a whole matrix into a step's expression. -/
inductive Operation where
  | Value : ℚ → Operation
  | Variable : EquationRepr → Operation
  | Sum : List Operation → Operation
  | Negate : Option Operation → Operation
  | Divide : Option Operation → Option Operation → Operation
  | Text : String → Operation
  | MatrixVariable : List (List Operation) → Operation

/-- Modelled from the spec: the additive identity used by the zero-initialized
matrices (`ndarray::Array2::<Operation>::zeros`).  The repository's own tests
render untouched cells as "0" (e.g. `test_z_matrix`), pinning the zero cell to
the literal 0. -/
def Operation.zero : Operation := Operation.Value 0

/-- A matrix of symbolic cells (`ndarray::Array2<Operation>`), row major. -/
abbrev Matrix2 := List (List Operation)

/-- Read cell (r, c); out-of-range reads return the zero cell. -/
def mget (mat : Matrix2) (r c : Nat) : Operation :=
  (mat.getD r []).getD c Operation.zero

/-- Write cell (r, c) (`matrix[[r, c]] = v`).  All writes performed by the
translated code are in bounds; out-of-range writes are no-ops here (ndarray
would panic). -/
def mset (mat : Matrix2) (r c : Nat) (v : Operation) : Matrix2 :=
  mat.set r ((mat.getD r []).set c v)

/-- The all-zeros r × c matrix (`ndarray::Array2::<Operation>::zeros`). -/
def zeros (r c : Nat) : Matrix2 :=
  List.replicate r (List.replicate c Operation.zero)

/-- One pending matrix write: row, column, value. -/
abbrev MWrite := Nat × Nat × Operation

/-- Perform a sequence of writes in order (the imperative loops of the source
are translated into the list of writes they emit, applied in program order;
every written value depends only on the container, never on the matrix being
mutated, so this is a faithful translation). -/
def applyWrites : Matrix2 → List MWrite → Matrix2
  | mat, [] => mat
  | mat, (r, c, v) :: ws => applyWrites (mset mat r c v) ws

/-- The values written at cell (r, c) by a write sequence, in order. -/
def writesAt (ws : List MWrite) (r c : Nat) : List Operation :=
  ws.filterMap (fun w => if w.1 = r ∧ w.2.1 = c then some w.2.2 else none)

/-- An indexed loop (`for (i, x) in xs.iter().enumerate()`) emitting writes:
`f` receives the running index and the item. -/
def idxWrites (f : Nat → α → List MWrite) : List α → Nat → List MWrite
  | [], _ => []
  | x :: xs, i => f i x ++ idxWrites f xs (i + 1)

-- ## Generic list lemmas about set / getD

theorem getD_set_self {α : Type _} (l : List α) (i : Nat) (a d : α)
    (h : i < l.length) : (l.set i a).getD i d = a := by
  induction l generalizing i with
  | nil => simp at h
  | cons x xs ih =>
    cases i with
    | zero => simp
    | succ n =>
      simp only [List.set_cons_succ, List.getD_cons_succ]
      exact ih n (by simpa using h)

theorem getD_set_ne {α : Type _} (l : List α) (i j : Nat) (a d : α)
    (h : i ≠ j) : (l.set i a).getD j d = l.getD j d := by
  induction l generalizing i j with
  | nil => simp
  | cons x xs ih =>
    cases i with
    | zero =>
      cases j with
      | zero => exact absurd rfl h
      | succ m => simp
    | succ n =>
      cases j with
      | zero => simp
      | succ m =>
        simp only [List.set_cons_succ, List.getD_cons_succ]
        exact ih n m (by omega)

-- ## mset / mget basic lemmas

theorem length_mset (mat : Matrix2) (r c : Nat) (v : Operation) :
    (mset mat r c v).length = mat.length := by
  simp [mset]

theorem rowlen_mset (mat : Matrix2) (r c i : Nat) (v : Operation) :
    ((mset mat r c v).getD i []).length = (mat.getD i []).length := by
  unfold mset
  by_cases h : r = i
  · subst h
    by_cases hk : r < mat.length
    · rw [getD_set_self mat r _ [] hk]; simp
    · rw [List.set_eq_of_length_le (by omega)]
  · rw [getD_set_ne mat r i _ [] h]

theorem mget_mset_self (mat : Matrix2) (r c : Nat) (v : Operation)
    (hr : r < mat.length) (hc : c < (mat.getD r []).length) :
    mget (mset mat r c v) r c = v := by
  unfold mget mset
  rw [getD_set_self mat r _ [] hr, getD_set_self _ c _ _ hc]

theorem mget_mset_ne (mat : Matrix2) (r c r' c' : Nat) (v : Operation)
    (h : ¬(r = r' ∧ c = c')) : mget (mset mat r c v) r' c' = mget mat r' c' := by
  unfold mget mset
  by_cases hr : r = r'
  · subst hr
    have hc : c ≠ c' := fun hcc => h ⟨rfl, hcc⟩
    by_cases hk : r < mat.length
    · rw [getD_set_self mat r _ [] hk, getD_set_ne _ c c' _ _ hc]
    · rw [List.set_eq_of_length_le (by omega)]
  · rw [getD_set_ne mat r r' _ [] hr]

-- ## applyWrites lemmas

theorem length_applyWrites (ws : List MWrite) (mat : Matrix2) :
    (applyWrites mat ws).length = mat.length := by
  induction ws generalizing mat with
  | nil => rfl
  | cons w ws ih =>
    obtain ⟨r, c, v⟩ := w
    rw [applyWrites, ih, length_mset]

theorem rowlen_applyWrites (ws : List MWrite) (mat : Matrix2) (i : Nat) :
    ((applyWrites mat ws).getD i []).length = (mat.getD i []).length := by
  induction ws generalizing mat with
  | nil => rfl
  | cons w ws ih =>
    obtain ⟨r, c, v⟩ := w
    rw [applyWrites, ih, rowlen_mset]

theorem writesAt_nil (r c : Nat) : writesAt [] r c = [] := rfl

theorem writesAt_cons (w : MWrite) (ws : List MWrite) (r c : Nat) :
    writesAt (w :: ws) r c =
      (if w.1 = r ∧ w.2.1 = c then [w.2.2] else []) ++ writesAt ws r c := by
  simp only [writesAt, List.filterMap_cons]
  split <;> simp_all

theorem writesAt_append (l1 l2 : List MWrite) (r c : Nat) :
    writesAt (l1 ++ l2) r c = writesAt l1 r c ++ writesAt l2 r c := by
  simp [writesAt, List.filterMap_append]

/-- The central write-sequence lemma: after applying all writes, a cell holds
the last value written to it, or its previous content if never written. -/
theorem mget_applyWrites (ws : List MWrite) (mat : Matrix2) (r c : Nat)
    (hr : r < mat.length) (hc : c < (mat.getD r []).length) :
    mget (applyWrites mat ws) r c = (writesAt ws r c).getLastD (mget mat r c) := by
  induction ws generalizing mat with
  | nil => rfl
  | cons w ws ih =>
    obtain ⟨r', c', v⟩ := w
    rw [applyWrites, writesAt_cons]
    have hr2 : r < (mset mat r' c' v).length := by rw [length_mset]; exact hr
    have hc2 : c < ((mset mat r' c' v).getD r []).length := by
      rw [rowlen_mset]; exact hc
    rw [ih (mset mat r' c' v) hr2 hc2]
    by_cases h : r' = r ∧ c' = c
    · obtain ⟨h1, h2⟩ := h
      subst h1; subst h2
      rw [mget_mset_self mat r' c' v hr hc]
      rw [if_pos ⟨rfl, rfl⟩, List.singleton_append, List.getLastD_cons]
    · rw [mget_mset_ne mat r' c' r c v h]
      simp only [h, if_false, List.nil_append]

theorem length_zeros (r c : Nat) : (zeros r c).length = r := by
  simp [zeros]

theorem rowlen_zeros (r c i : Nat) (h : i < r) :
    ((zeros r c).getD i []).length = c := by
  unfold zeros
  rw [List.getD_eq_getElem?_getD, List.getElem?_replicate]
  simp [h]

theorem mget_zeros (r c i j : Nat) : mget (zeros r c) i j = Operation.zero := by
  unfold mget zeros
  have houter : (List.replicate r (List.replicate c Operation.zero)).getD i [] =
      List.replicate c Operation.zero ∨
      (List.replicate r (List.replicate c Operation.zero)).getD i [] = [] := by
    rw [List.getD_eq_getElem?_getD, List.getElem?_replicate]
    by_cases h : i < r
    · left; rw [if_pos h]; rfl
    · right; rw [if_neg h]; rfl
  rcases houter with h | h <;> rw [h]
  · rw [List.getD_eq_getElem?_getD, List.getElem?_replicate]
    by_cases h2 : j < c
    · rw [if_pos h2]; rfl
    · rw [if_neg h2]; rfl
  · rfl

-- ## idxWrites lemmas

theorem writesAt_idxWrites_nil {α : Type _} (f : Nat → α → List MWrite)
    (xs : List α) (i0 r c : Nat) (d : α)
    (h : ∀ k, k < xs.length → writesAt (f (i0 + k) (xs.getD k d)) r c = []) :
    writesAt (idxWrites f xs i0) r c = [] := by
  induction xs generalizing i0 with
  | nil => rfl
  | cons x xs ih =>
    rw [idxWrites, writesAt_append]
    have h0 := h 0 (by simp)
    simp only [Nat.add_zero, List.getD_cons_zero] at h0
    rw [h0, List.nil_append]
    exact ih (i0 + 1) (fun k hk => by
      have := h (k + 1) (by simpa using Nat.succ_lt_succ hk)
      simpa [Nat.add_assoc, Nat.add_comm 1 k] using this)

/-- If exactly one loop position `t` can write to cell (r, c), the writes at
the cell are those of iteration `t`. -/
theorem writesAt_idxWrites_unique {α : Type _} (f : Nat → α → List MWrite)
    (xs : List α) (i0 t r c : Nat) (d : α)
    (ht1 : i0 ≤ t) (ht2 : t < i0 + xs.length)
    (h : ∀ k, k < xs.length → i0 + k ≠ t →
      writesAt (f (i0 + k) (xs.getD k d)) r c = []) :
    writesAt (idxWrites f xs i0) r c =
      writesAt (f t (xs.getD (t - i0) d)) r c := by
  induction xs generalizing i0 with
  | nil => simp at ht2; omega
  | cons x xs ih =>
    rw [idxWrites, writesAt_append]
    by_cases heq : i0 = t
    · subst heq
      have hrest : writesAt (idxWrites f xs (i0 + 1)) r c = [] := by
        apply writesAt_idxWrites_nil f xs (i0 + 1) r c d
        intro k hk
        have := h (k + 1) (by simpa using Nat.succ_lt_succ hk) (by omega)
        simpa [Nat.add_assoc, Nat.add_comm 1 k] using this
      rw [hrest, List.append_nil]
      simp
    · have h0 : writesAt (f i0 x) r c = [] := by
        have := h 0 (by simp) (by omega)
        simpa using this
      rw [h0, List.nil_append]
      have := ih (i0 + 1) (by omega) (by simp at ht2 ⊢; omega)
        (fun k hk hne => by
          have := h (k + 1) (by simpa using Nat.succ_lt_succ hk) (by omega)
          simpa [Nat.add_assoc, Nat.add_comm 1 k] using this)
      rw [this]
      have : t - i0 = t - (i0 + 1) + 1 := by omega
      rw [this, List.getD_cons_succ]

-- ## Rendering (the `operations` crate's canonical-text form; not in src/)

/-- Modelled from the spec: rendering of a numeric literal.  The repository's
tests pin integer rendering ("32", "0", "-1"). -/
def renderQ (q : ℚ) : String :=
  if q.den = 1 then toString q.num else toString q.num ++ "/" ++ toString q.den

mutual

/-- Modelled from the spec: the deterministic canonical-text form of an
`Operation` (spec section 4.2).  The concrete shapes are pinned by the
repository's tests: "1/R1", "1/R2 + 1/R3", "-1/R2", "", "0", "-1".  A hole
(missing optional operand) renders as an empty marker, never a failure. -/
def equation_repr : Operation → String
  | .Value q => renderQ q
  | .Variable r => r.label
  | .Sum l => String.intercalate (" + ") (equation_repr_list l)
  | .Negate none => "-"
  | .Negate (some x) => "-" ++ equation_repr x
  | .Divide none none => "/"
  | .Divide (some x) none => equation_repr x ++ "/"
  | .Divide none (some y) => "/" ++ equation_repr y
  | .Divide (some x) (some y) => equation_repr x ++ "/" ++ equation_repr y
  | .Text s => s
  | .MatrixVariable rows => String.intercalate (" ; ") (equation_repr_rows rows)

def equation_repr_list : List Operation → List String
  | [] => []
  | x :: xs => equation_repr x :: equation_repr_list xs

def equation_repr_rows : List (List Operation) → List String
  | [] => []
  | r :: rs => String.intercalate (" & ") (equation_repr_list r) :: equation_repr_rows rs

end

/-- Modelled from the spec: `matrix_to_latex` (operations crate, not in src/)
— the canonical textual rendering of a matrix, built from the canonical text
of every cell. -/
def matrix_to_latex (m : Matrix2) : String :=
  String.intercalate (" \\\\ ") (equation_repr_rows m)

/-- Node display label.  Pinned by `test_x_matrix` in src ("Node: 1"). -/
def Node.pretty_string (n : Node) : String := "Node: " ++ toString n.id

/-- Modelled from the spec: the display label of an element.  Resistor labels
("R1") are pinned by `test_g_matrix`; source labels by `test_x_matrix`. -/
def elementLabel (e : Element) : String :=
  match e.cls with
  | .Resistor => "R" ++ toString e.id
  | .VoltageSrc => "SRC(V)" ++ toString e.id
  | .CurrentSrc => "SRC(I)" ++ toString e.id

/-- Modelled from the spec: `pretty_string` of an element; the voltage-source
form "SRC(V)4: 32 V" is pinned by `test_x_matrix` in src. -/
def Element.pretty_string (e : Element) : String :=
  match e.cls with
  | .VoltageSrc => "SRC(V)" ++ toString e.id ++ ": " ++ renderQ e.value ++ " V"
  | .CurrentSrc => "SRC(I)" ++ toString e.id ++ ": " ++ renderQ e.value ++ " A"
  | .Resistor => "R" ++ toString e.id

/-- `EquationRepr::from(element)`: the labeled-variable payload of an element
(label plus its numeric value); modelled from the spec ("labeled knowns such
as resistor names"). -/
def elementRepr (e : Element) : EquationRepr := ⟨elementLabel e, e.value⟩

-- ## Container accessors (methods not in src/, modelled from spec and usage)

/-- `Container::get_elements`. -/
def Container.get_elements (c : Container) : List Element := c.elements

/-- Modelled from the spec: `Container::get_voltage_sources` — the voltage
source elements, in element order (used to index MNA source columns). -/
def Container.get_voltage_sources (c : Container) : List Element :=
  c.elements.filter (fun x => x.cls == Component.VoltageSrc)

/-- Modelled from the spec: node discovery (`create_nodes`) is not in the
given sources; the embedding takes containers whose nodes are already built,
and on a Built container the call is idempotent (spec section 4.4 state
machine), i.e. the identity. -/
def Container.create_nodes (c : Container) : Container := c

/-- Modelled from the spec: super-node contraction, idempotent on a Built
container (spec section 4.4); no claim inspects its output. -/
def Container.create_super_nodes (c : Container) : Container := c

/-- Modelled from the spec: mesh topology building (out of solving scope,
spec section 1); no claim inspects its output. -/
def Container.create_meshes (c : Container) : Container := c

/-- Modelled from the spec: super-mesh contraction; no claim inspects it. -/
def Container.create_super_meshes (c : Container) : Container := c

/-- Modelled from the spec: `Node::contains` — whether the element is a member
of the node (spec section 4.3: "voltage source j whose terminal is a member of
node i"); membership is by element id. -/
def Node.contains (n : Node) (e : Element) : Bool :=
  n.members.any (fun x => x.id == e.id)

/-- The node's reference terminal id: the source reads `members[0].id`.  A
node that `contains` any element has nonempty members, so the empty default is
never reached on the paths the code takes. -/
def firstMemberId (n : Node) : Nat :=
  match n.members with
  | [] => 0
  | e :: _ => e.id

/-- Stable insertion of a node into an id-sorted list (ascending). -/
def insertNode (e : Node) : List Node → List Node
  | [] => [e]
  | x :: xs => if e.id ≤ x.id then e :: x :: xs else x :: insertNode e xs

/-- `nodes.sort_by(|a, b| a.id.cmp(&b.id))`: stable ascending sort by id
(insertion sort is extensionally the same stable ascending sort as Rust's
stable mergesort). -/
def sortNodes : List Node → List Node
  | [] => []
  | x :: xs => insertNode x (sortNodes xs)

/-- The solver's "Source Count" fold (`NodeSolver::new`, lines 22-29): counts
voltage AND current sources. -/
def sourceCount (c : Container) : Nat :=
  c.get_elements.foldl
    (fun acc x =>
      match x.cls with
      | .VoltageSrc | .CurrentSrc => acc + 1
      | _ => acc) 0

-- ## The MNA sub-matrix assemblers (node_matrix_solver.rs)

/-- The diagonal term list of `form_g_matrix`: for each resistor member of the
node, the symbolic `1/R` with `R` the resistor's labeled variable. -/
def gDiagSet (node : Node) : List Operation :=
  (node.members.filter (fun x => x.cls == Component.Resistor)).map
    (fun x => Operation.Divide (some (Operation.Value 1))
      (some (Operation.Variable (elementRepr x))))

/-- The off-diagonal term list of `form_g_matrix`: one negated `1/R` for every
pair of resistor members of the two nodes sharing the same element id. -/
def gOffSet (tool tool2 : Node) : List Operation :=
  tool.members.flatMap (fun e =>
    if e.cls == Component.Resistor then
      tool2.members.filterMap (fun e2 =>
        if e2.cls == Component.Resistor && e2.id == e.id then
          some (Operation.Negate (some (Operation.Divide
            (some (Operation.Value 1))
            (some (Operation.Variable (elementRepr e))))))
        else none)
    else [])

/-- `form_g_matrix` (lines 108-171): zeros n×n, then the diagonal loop writes
`Sum` of the node's reciprocal-resistor terms at (n-i-1, n-i-1) over the
id-sorted nodes, then the double loop writes the bridging sums at
(n-i-1, n-j-1) for i ≠ j. -/
def form_g_matrix (c : Container) (n : Nat) : Matrix2 :=
  applyWrites (zeros n n)
    (idxWrites (fun i node =>
        [(n - i - 1, n - i - 1, Operation.Sum (gDiagSet node))])
        (sortNodes c.nodes) 0 ++
     idxWrites (fun i tool =>
        idxWrites (fun j tool2 =>
          if i = j then []
          else [(n - i - 1, n - j - 1, Operation.Sum (gOffSet tool tool2))])
          (sortNodes c.nodes) 0) (sortNodes c.nodes) 0)

/-- The value `form_b_matrix` writes for a node touching a voltage source:
-1 if the source's positive set holds the node's first member's id, else 1. -/
def bWriteVal (node : Node) (vs : Element) : Operation :=
  if vs.positive.contains (firstMemberId node) then Operation.Value (-1)
  else Operation.Value 1

/-- `form_b_matrix` (lines 173-199): zeros n×m; for node i (container order)
and voltage source j with the source a member of the node, write the signed
unit at (n-i-1, j). -/
def form_b_matrix (c : Container) (n m : Nat) : Matrix2 :=
  applyWrites (zeros n m)
    (idxWrites (fun i tool =>
      idxWrites (fun j element =>
        if tool.contains element then [(n - i - 1, j, bWriteVal tool element)]
        else []) c.get_voltage_sources 0) c.nodes 0)

/-- Dimension-aware transpose (`swap_axes(0, 1)` of an r × c array). -/
def mtranspose (mat : Matrix2) (r c : Nat) : Matrix2 :=
  (List.range c).map (fun j => (List.range r).map (fun i => mget mat i j))

/-- `form_c_matrix` (lines 201-209): the B matrix with axes swapped. -/
def form_c_matrix (c : Container) (n m : Nat) : Matrix2 :=
  mtranspose (form_b_matrix c n m) n m

/-- `form_d_matrix` (lines 211-214): the zero m×m matrix. -/
def form_d_matrix (_c : Container) (m : Nat) : Matrix2 := zeros m m

/-- The literal current-source values of a node's members (Z's I-block). -/
def currentVals (node : Node) : List Operation :=
  (node.members.filter (fun x => x.cls == Component.CurrentSrc)).map
    (fun x => Operation.Value x.value)

/-- `form_z_matrix` (lines 216-248): zeros (n+m)×1; the I loop writes, at row
i (container node order), the `Sum` of the node's current-source values,
skipping nodes with an empty set; the E loop writes voltage source j's literal
value at row n+j. -/
def form_z_matrix (c : Container) (n m : Nat) : Matrix2 :=
  applyWrites (zeros (n + m) 1)
    (idxWrites (fun i tool =>
        if (currentVals tool).length = 0 then []
        else [(i, 0, Operation.Sum (currentVals tool))]) c.nodes 0 ++
     idxWrites (fun j source =>
        [(n + j, 0, Operation.Value source.value)]) c.get_voltage_sources 0)

/-- The labeled unknown for a node voltage (X's V-block cell):
`Variable(EquationRepr::new(node.pretty_string(), 0.0))`. -/
def nodeVar (node : Node) : Operation :=
  Operation.Variable ⟨node.pretty_string, 0⟩

/-- The labeled unknown for a source branch current (X's J-block cell). -/
def sourceVar (e : Element) : Operation :=
  Operation.Variable ⟨e.pretty_string, 0⟩

/-- `form_x_matrix` (lines 250-275): zeros (n+m)×1; the V loop writes the node
label variable at row i (container node order); the J loop writes the source
label variable at row n+j. -/
def form_x_matrix (c : Container) (n m : Nat) : Matrix2 :=
  applyWrites (zeros (n + m) 1)
    (idxWrites (fun i tool => [(i, 0, nodeVar tool)]) c.nodes 0 ++
     idxWrites (fun j source => [(n + j, 0, sourceVar source)])
       c.get_voltage_sources 0)

/-- The elementwise writes of `slice_mut(s![r0.., c0..]).assign(&block)`. -/
def blockWrites (block : Matrix2) (r0 c0 : Nat) : List MWrite :=
  idxWrites (fun i row =>
    idxWrites (fun j v => [(r0 + i, c0 + j, v)]) row 0) block 0

/-- `form_a_matrix` (lines 87-106): zeros (n+m)×(n+m) with G, B, C, D assigned
into the four quadrants in order. -/
def form_a_matrix (c : Container) (n m : Nat) : Matrix2 :=
  applyWrites (zeros (n + m) (n + m))
    (blockWrites (form_g_matrix c n) 0 0 ++ blockWrites (form_b_matrix c n m) 0 n ++
     blockWrites (form_c_matrix c n m) n 0 ++ blockWrites (form_d_matrix c m) n n)

-- ## The matrix-strategy solver (NodeSolver)

/-- One explanatory solver step: a label plus an optional ordered list of
symbolic expressions (spec section 3). -/
structure Step where
  label : String
  sub_steps : Option (List Operation)

/-- The matrix-strategy solver state (`struct NodeSolver`). -/
structure NodeSolver where
  container : Container
  a_matrix : Matrix2
  x_matrix : Matrix2
  z_matrix : Matrix2

/-- `NodeSolver::new` (lines 19-38): build nodes, count n = nodes, m = the
source fold, and assemble A, X and Z with those sizes. -/
def NodeSolver.new (container : Container) : NodeSolver :=
  let c := container.create_nodes
  let n := c.nodes.length
  let m := sourceCount c
  { container := c
    a_matrix := form_a_matrix c n m
    x_matrix := form_x_matrix c n m
    z_matrix := form_z_matrix c n m }

/-- `NodeSolver::solve` (lines 41-84): pushes the six steps (A, Z, X, the
"TODO" inverse placeholder, an empty Final Equation, and the Final Equation
text) and returns Ok.  `inverse_a_matrix` is a plain clone of A — the actual
inversion call is commented out in the source. -/
def NodeSolver.solve (s : NodeSolver) : Except String (List Step) :=
  let inverse_a_matrix := s.a_matrix
  Except.ok
    [ { label := "A Matrix", sub_steps := some [Operation.MatrixVariable s.a_matrix] },
      { label := "Z Matrix", sub_steps := some [Operation.MatrixVariable s.z_matrix] },
      { label := "X Matrix", sub_steps := some [Operation.MatrixVariable s.x_matrix] },
      { label := "Inverse A Matrix", sub_steps := some [Operation.Text ("TODO")] },
      { label := "Final Equation", sub_steps := some [] },
      { label := "Final Equation", sub_steps := some [Operation.Text
        (matrix_to_latex s.x_matrix ++ " = " ++ matrix_to_latex inverse_a_matrix
          ++ "^\x7b-1\x7d * " ++ matrix_to_latex s.z_matrix)] } ]

-- ## Validation (validation.rs) and the public solve entry (interfaces.rs)

/-- Possible Ok statuses (validation.rs). -/
inductive Status where
  | Valid
  | Simplified
deriving DecidableEq, Repr

/-- Possible issues (validation.rs). -/
inductive StatusError where
  | Unknown : StatusError
  | KnownIssue : String → StatusError
  | MultipleIssues : List StatusError → StatusError

/-- The Display impl of StatusError (validation.rs lines 40-50); the debug
list body of MultipleIssues is immaterial to every claim. -/
def statusErrorDisplay : StatusError → String
  | .Unknown => "Unknown Issue"
  | .KnownIssue s => "Known Issue: " ++ s
  | .MultipleIssues _ => "Multiple Issues"

/-- `check_duplicates` (validation.rs lines 73-85), specialized to the element
list: walk the list with a seen set, emitting a KnownIssue per duplicate. -/
def check_duplicates_go (seen : List Element) : List Element → List StatusError
  | [] => []
  | x :: rest =>
    (if seen.contains x then
      [StatusError.KnownIssue ("Duplicate: " ++ x.pretty_string)]
     else []) ++ check_duplicates_go (seen ++ [x]) rest

/-- `check_duplicates` entry point. -/
def check_duplicates (l : List Element) : List StatusError :=
  check_duplicates_go [] l

/-- Modelled from the spec: the Container's `Validation` impl is not in src/;
spec section 6 says validation rejects structural problems (e.g. duplicate
ids) with the taxonomy of validation.rs. -/
def Container.validate (c : Container) : Except StatusError Status :=
  match check_duplicates c.elements with
  | [] => Except.ok Status.Valid
  | [e] => Except.error e
  | es => Except.error (StatusError.MultipleIssues es)

/-- `From<ContainerSetup> for Container` (interfaces.rs lines 132-140):
a new container holding the given elements (`add_element_core` appends; it is
not in src/, modelled from the spec's "owns the element list"). -/
def containerFrom (setup : List Element) : Container :=
  { elements := setup, nodes := [] }

/-- Modelled from the spec: `serialize_steps` (solver.rs, not in src/) — the
bridging-layer encoding of the step list; any canonical textual encoding
serves the claims, which never inspect it. -/
def serialize_steps (steps : List Step) : Except String String :=
  Except.ok (String.intercalate ("; ") (steps.map (fun s => s.label)))

/-- The mesh-branch error text of `solve` (interfaces.rs lines 72-75). -/
def meshSolveError (matrix : Bool) : String :=
  (if matrix then "Matrix" else "Step") ++ " Solver not implemented for meshes"

/-- `solve` (interfaces.rs lines 50-78): validate, then either run the nodal
solver (matrix strategy = NodeSolver from src; the step strategy is the
missing external NodeStepSolver, passed as a parameter) or build meshes and
fail with the not-implemented error.  Errors are surfaced as their display
text (the JsValue conversion). -/
def solveInterface (stepSolver : Container → Except String (List Step))
    (matrix nodal : Bool) (setup : List Element) : Except String String :=
  let c := containerFrom setup
  match c.validate with
  | Except.error e => Except.error (statusErrorDisplay e)
  | Except.ok _ =>
    if nodal then
      let c2 := c.create_nodes.create_super_nodes
      match (if matrix then (NodeSolver.new c2).solve else stepSolver c2) with
      | Except.error e => Except.error e
      | Except.ok steps => serialize_steps steps
    else
      let _c2 := c.create_meshes.create_super_meshes
      Except.error (meshSolveError matrix)

/-- Default node for positional reads. -/
def dNode : Node := ⟨0, []⟩

/-- Default element for positional reads. -/
def dElem : Element := ⟨0, Component.Resistor, 0, [], []⟩

-- ## Small write-list and dimension lemmas

theorem writesAt_single (r' c' r c : Nat) (v : Operation) :
    writesAt [(r', c', v)] r c = if r' = r ∧ c' = c then [v] else [] := by
  rw [show ([(r', c', v)] : List MWrite) = (r', c', v) :: [] from rfl,
    writesAt_cons, writesAt_nil, List.append_nil]

theorem length_insertNode (e : Node) (l : List Node) :
    (insertNode e l).length = l.length + 1 := by
  induction l with
  | nil => rfl
  | cons x xs ih =>
    rw [insertNode]
    split
    · simp
    · simp [ih]

theorem length_sortNodes (l : List Node) : (sortNodes l).length = l.length := by
  induction l with
  | nil => rfl
  | cons x xs ih => rw [sortNodes, length_insertNode, ih, List.length_cons]

theorem length_form_g (c : Container) (n : Nat) :
    (form_g_matrix c n).length = n := by
  rw [form_g_matrix, length_applyWrites, length_zeros]

theorem rowlen_form_g (c : Container) (n r : Nat) (hr : r < n) :
    ((form_g_matrix c n).getD r []).length = n := by
  rw [form_g_matrix, rowlen_applyWrites, rowlen_zeros _ _ _ hr]

theorem length_form_b (c : Container) (n m : Nat) :
    (form_b_matrix c n m).length = n := by
  rw [form_b_matrix, length_applyWrites, length_zeros]

theorem rowlen_form_b (c : Container) (n m r : Nat) (hr : r < n) :
    ((form_b_matrix c n m).getD r []).length = m := by
  rw [form_b_matrix, rowlen_applyWrites, rowlen_zeros _ _ _ hr]

theorem getD_range_map {β : Type _} (f : Nat → β) (k j : Nat) (d : β)
    (h : j < k) : ((List.range k).map f).getD j d = f j := by
  rw [List.getD_eq_getElem?_getD, List.getElem?_map, List.getElem?_range h]
  rfl

theorem length_form_c (c : Container) (n m : Nat) :
    (form_c_matrix c n m).length = m := by
  rw [form_c_matrix, mtranspose, List.length_map, List.length_range]

theorem rowlen_form_c (c : Container) (n m r : Nat) (hr : r < m) :
    ((form_c_matrix c n m).getD r []).length = n := by
  rw [form_c_matrix, mtranspose, getD_range_map _ _ _ _ hr, List.length_map,
    List.length_range]

theorem length_form_d (c : Container) (m : Nat) :
    (form_d_matrix c m).length = m := by
  rw [form_d_matrix, length_zeros]

theorem rowlen_form_d (c : Container) (m r : Nat) (hr : r < m) :
    ((form_d_matrix c m).getD r []).length = m := by
  rw [form_d_matrix, rowlen_zeros _ _ _ hr]

theorem length_form_z (c : Container) (n m : Nat) :
    (form_z_matrix c n m).length = n + m := by
  rw [form_z_matrix, length_applyWrites, length_zeros]

theorem rowlen_form_z (c : Container) (n m r : Nat) (hr : r < n + m) :
    ((form_z_matrix c n m).getD r []).length = 1 := by
  rw [form_z_matrix, rowlen_applyWrites, rowlen_zeros _ _ _ hr]

theorem length_form_x (c : Container) (n m : Nat) :
    (form_x_matrix c n m).length = n + m := by
  rw [form_x_matrix, length_applyWrites, length_zeros]

theorem rowlen_form_x (c : Container) (n m r : Nat) (hr : r < n + m) :
    ((form_x_matrix c n m).getD r []).length = 1 := by
  rw [form_x_matrix, rowlen_applyWrites, rowlen_zeros _ _ _ hr]

theorem length_form_a (c : Container) (n m : Nat) :
    (form_a_matrix c n m).length = n + m := by
  rw [form_a_matrix, length_applyWrites, length_zeros]

theorem rowlen_form_a (c : Container) (n m r : Nat) (hr : r < n + m) :
    ((form_a_matrix c n m).getD r []).length = n + m := by
  rw [form_a_matrix, rowlen_applyWrites, rowlen_zeros _ _ _ hr]

-- ## G matrix cell characterization

theorem mget_form_g_diag (c : Container) (n i : Nat)
    (hn : c.nodes.length = n) (hi : i < n) :
    mget (form_g_matrix c n) (n - i - 1) (n - i - 1) =
      Operation.Sum (gDiagSet ((sortNodes c.nodes).getD i dNode)) := by
  have hlen : (sortNodes c.nodes).length = n := by rw [length_sortNodes, hn]
  have hb : n - i - 1 < n := by omega
  rw [form_g_matrix]
  rw [mget_applyWrites _ _ _ _ (by rw [length_zeros]; exact hb)
    (by rw [rowlen_zeros _ _ _ hb]; exact hb)]
  rw [writesAt_append]
  have hoff : writesAt (idxWrites (fun i tool => idxWrites (fun j tool2 =>
      if i = j then []
      else [(n - i - 1, n - j - 1, Operation.Sum (gOffSet tool tool2))])
      (sortNodes c.nodes) 0) (sortNodes c.nodes) 0) (n - i - 1) (n - i - 1) = [] := by
    apply writesAt_idxWrites_nil _ _ _ _ _ dNode
    intro k hk
    apply writesAt_idxWrites_nil _ _ _ _ _ dNode
    intro k2 hk2
    by_cases hkk : (0 + k : Nat) = 0 + k2
    · rw [if_pos hkk]; rfl
    · rw [if_neg hkk, writesAt_single, if_neg]
      rw [hlen] at hk hk2
      rintro ⟨h1, h2⟩
      omega
  rw [hoff, List.append_nil]
  rw [writesAt_idxWrites_unique _ _ 0 i _ _ dNode (Nat.zero_le i)
    (by rw [hlen]; omega)
    (by
      intro k hk hne
      rw [hlen] at hk
      rw [writesAt_single, if_neg]
      rintro ⟨h1, -⟩
      omega)]
  rw [Nat.sub_zero, writesAt_single, if_pos ⟨rfl, rfl⟩]
  rfl

theorem mget_form_g_off (c : Container) (n i j : Nat)
    (hn : c.nodes.length = n) (hi : i < n) (hj : j < n) (hij : i ≠ j) :
    mget (form_g_matrix c n) (n - i - 1) (n - j - 1) =
      Operation.Sum (gOffSet ((sortNodes c.nodes).getD i dNode)
        ((sortNodes c.nodes).getD j dNode)) := by
  have hlen : (sortNodes c.nodes).length = n := by rw [length_sortNodes, hn]
  have hbi : n - i - 1 < n := by omega
  have hbj : n - j - 1 < n := by omega
  rw [form_g_matrix]
  rw [mget_applyWrites _ _ _ _ (by rw [length_zeros]; exact hbi)
    (by rw [rowlen_zeros _ _ _ hbi]; exact hbj)]
  rw [writesAt_append]
  have hdiag : writesAt (idxWrites (fun i node =>
      [(n - i - 1, n - i - 1, Operation.Sum (gDiagSet node))])
      (sortNodes c.nodes) 0) (n - i - 1) (n - j - 1) = [] := by
    apply writesAt_idxWrites_nil _ _ _ _ _ dNode
    intro k hk
    rw [hlen] at hk
    rw [writesAt_single, if_neg]
    rintro ⟨h1, h2⟩
    omega
  rw [hdiag, List.nil_append]
  rw [writesAt_idxWrites_unique _ _ 0 i _ _ dNode (Nat.zero_le i)
    (by rw [hlen]; omega)
    (by
      intro k hk hne
      rw [hlen] at hk
      apply writesAt_idxWrites_nil _ _ _ _ _ dNode
      intro k2 hk2
      rw [hlen] at hk2
      by_cases hkk : (0 + k : Nat) = 0 + k2
      · rw [if_pos hkk]; rfl
      · rw [if_neg hkk, writesAt_single, if_neg]
        rintro ⟨h1, h2⟩
        omega)]
  rw [Nat.sub_zero]
  rw [writesAt_idxWrites_unique _ _ 0 j _ _ dNode (Nat.zero_le j)
    (by rw [hlen]; omega)
    (by
      intro k2 hk2 hne
      rw [hlen] at hk2
      by_cases hkk : i = 0 + k2
      · rw [if_pos hkk]; rfl
      · rw [if_neg hkk, writesAt_single, if_neg]
        rintro ⟨h1, h2⟩
        omega)]
  rw [Nat.sub_zero, if_neg hij]
  rw [writesAt_single, if_pos ⟨rfl, rfl⟩]
  rfl

-- ## B matrix cell characterization

theorem mget_form_b_cell (c : Container) (n m i j : Nat)
    (hn : c.nodes.length = n) (hi : i < n)
    (hj : j < c.get_voltage_sources.length)
    (hm : c.get_voltage_sources.length ≤ m) :
    mget (form_b_matrix c n m) (n - i - 1) j =
      (if (c.nodes.getD i dNode).contains (c.get_voltage_sources.getD j dElem) then
        bWriteVal (c.nodes.getD i dNode) (c.get_voltage_sources.getD j dElem)
      else Operation.zero) := by
  have hbi : n - i - 1 < n := by omega
  have hbj : j < m := by omega
  rw [form_b_matrix]
  rw [mget_applyWrites _ _ _ _ (by rw [length_zeros]; exact hbi)
    (by rw [rowlen_zeros _ _ _ hbi]; exact hbj)]
  rw [writesAt_idxWrites_unique _ _ 0 i _ _ dNode (Nat.zero_le i)
    (by rw [hn]; omega)
    (by
      intro k hk hne
      rw [hn] at hk
      apply writesAt_idxWrites_nil _ _ _ _ _ dElem
      intro k2 hk2
      split
      · rw [writesAt_single, if_neg]
        rintro ⟨h1, -⟩
        omega
      · rfl)]
  rw [Nat.sub_zero]
  rw [writesAt_idxWrites_unique _ _ 0 j _ _ dElem (Nat.zero_le j)
    (by omega)
    (by
      intro k2 hk2 hne
      split
      · rw [writesAt_single, if_neg]
        rintro ⟨-, h2⟩
        omega
      · rfl)]
  rw [Nat.sub_zero]
  by_cases hcont : (c.nodes.getD i dNode).contains (c.get_voltage_sources.getD j dElem) = true
  · rw [if_pos hcont, if_pos hcont, writesAt_single, if_pos ⟨rfl, rfl⟩]
    rfl
  · rw [if_neg hcont, if_neg hcont, writesAt_nil]
    simp [mget_zeros]

-- ## Z vector row characterization

theorem mget_form_z_Irow (c : Container) (n m i : Nat)
    (hn : c.nodes.length = n) (hi : i < n) :
    mget (form_z_matrix c n m) i 0 =
      (if (currentVals (c.nodes.getD i dNode)).length = 0 then Operation.zero
       else Operation.Sum (currentVals (c.nodes.getD i dNode))) := by
  have hbi : i < n + m := by omega
  rw [form_z_matrix]
  rw [mget_applyWrites _ _ _ _ (by rw [length_zeros]; exact hbi)
    (by rw [rowlen_zeros _ _ _ hbi]; omega)]
  rw [writesAt_append]
  have hE : writesAt (idxWrites (fun j source =>
      [(n + j, 0, Operation.Value source.value)]) c.get_voltage_sources 0) i 0 = [] := by
    apply writesAt_idxWrites_nil _ _ _ _ _ dElem
    intro k hk
    rw [writesAt_single, if_neg]
    rintro ⟨h1, -⟩
    omega
  rw [hE, List.append_nil]
  rw [writesAt_idxWrites_unique _ _ 0 i _ _ dNode (Nat.zero_le i)
    (by rw [hn]; omega)
    (by
      intro k hk hne
      split
      · rfl
      · rw [writesAt_single, if_neg]
        rintro ⟨h1, -⟩
        omega)]
  rw [Nat.sub_zero]
  by_cases hz : (currentVals (c.nodes.getD i dNode)).length = 0
  · rw [if_pos hz, if_pos hz, writesAt_nil]
    simp [mget_zeros]
  · rw [if_neg hz, if_neg hz, writesAt_single, if_pos ⟨rfl, rfl⟩]
    rfl

theorem mget_form_z_Erow (c : Container) (n m j : Nat)
    (hn : c.nodes.length = n)
    (hj : j < c.get_voltage_sources.length)
    (hm : c.get_voltage_sources.length ≤ m) :
    mget (form_z_matrix c n m) (n + j) 0 =
      Operation.Value ((c.get_voltage_sources.getD j dElem).value) := by
  have hb : n + j < n + m := by omega
  rw [form_z_matrix]
  rw [mget_applyWrites _ _ _ _ (by rw [length_zeros]; exact hb)
    (by rw [rowlen_zeros _ _ _ hb]; omega)]
  rw [writesAt_append]
  have hI : writesAt (idxWrites (fun i tool =>
      if (currentVals tool).length = 0 then []
      else [(i, 0, Operation.Sum (currentVals tool))]) c.nodes 0) (n + j) 0 = [] := by
    apply writesAt_idxWrites_nil _ _ _ _ _ dNode
    intro k hk
    rw [hn] at hk
    split
    · rfl
    · rw [writesAt_single, if_neg]
      rintro ⟨h1, -⟩
      omega
  rw [hI, List.nil_append]
  rw [writesAt_idxWrites_unique _ _ 0 j _ _ dElem (Nat.zero_le j)
    (by omega)
    (by
      intro k hk hne
      rw [writesAt_single, if_neg]
      rintro ⟨h1, -⟩
      omega)]
  rw [Nat.sub_zero, writesAt_single, if_pos ⟨rfl, rfl⟩]
  rfl

-- ## X vector row characterization

theorem mget_form_x_Vrow (c : Container) (n m i : Nat)
    (hn : c.nodes.length = n) (hi : i < n) :
    mget (form_x_matrix c n m) i 0 = nodeVar (c.nodes.getD i dNode) := by
  have hbi : i < n + m := by omega
  rw [form_x_matrix]
  rw [mget_applyWrites _ _ _ _ (by rw [length_zeros]; exact hbi)
    (by rw [rowlen_zeros _ _ _ hbi]; omega)]
  rw [writesAt_append]
  have hJ : writesAt (idxWrites (fun j source =>
      [(n + j, 0, sourceVar source)]) c.get_voltage_sources 0) i 0 = [] := by
    apply writesAt_idxWrites_nil _ _ _ _ _ dElem
    intro k hk
    rw [writesAt_single, if_neg]
    rintro ⟨h1, -⟩
    omega
  rw [hJ, List.append_nil]
  rw [writesAt_idxWrites_unique _ _ 0 i _ _ dNode (Nat.zero_le i)
    (by rw [hn]; omega)
    (by
      intro k hk hne
      rw [writesAt_single, if_neg]
      rintro ⟨h1, -⟩
      omega)]
  rw [Nat.sub_zero, writesAt_single, if_pos ⟨rfl, rfl⟩]
  rfl

theorem mget_form_x_Jrow (c : Container) (n m j : Nat)
    (hn : c.nodes.length = n)
    (hj : j < c.get_voltage_sources.length)
    (hm : c.get_voltage_sources.length ≤ m) :
    mget (form_x_matrix c n m) (n + j) 0 =
      sourceVar (c.get_voltage_sources.getD j dElem) := by
  have hb : n + j < n + m := by omega
  rw [form_x_matrix]
  rw [mget_applyWrites _ _ _ _ (by rw [length_zeros]; exact hb)
    (by rw [rowlen_zeros _ _ _ hb]; omega)]
  rw [writesAt_append]
  have hV : writesAt (idxWrites (fun i tool =>
      [(i, 0, nodeVar tool)]) c.nodes 0) (n + j) 0 = [] := by
    apply writesAt_idxWrites_nil _ _ _ _ _ dNode
    intro k hk
    rw [hn] at hk
    rw [writesAt_single, if_neg]
    rintro ⟨h1, -⟩
    omega
  rw [hV, List.nil_append]
  rw [writesAt_idxWrites_unique _ _ 0 j _ _ dElem (Nat.zero_le j)
    (by omega)
    (by
      intro k hk hne
      rw [writesAt_single, if_neg]
      rintro ⟨h1, -⟩
      omega)]
  rw [Nat.sub_zero, writesAt_single, if_pos ⟨rfl, rfl⟩]
  rfl

-- ## Block-assignment characterization and the A matrix quadrants

theorem writesAt_blockWrites (block : Matrix2) (r0 c0 r c : Nat) :
    writesAt (blockWrites block r0 c0) r c =
      (if r0 ≤ r ∧ r < r0 + block.length ∧ c0 ≤ c ∧
          c < c0 + ((block.getD (r - r0) []).length) then
        [(block.getD (r - r0) []).getD (c - c0) Operation.zero]
      else []) := by
  rw [blockWrites]
  by_cases hr : r0 ≤ r ∧ r < r0 + block.length
  · rw [writesAt_idxWrites_unique _ _ 0 (r - r0) _ _ [] (Nat.zero_le _)
      (by omega)
      (by
        intro k hk hne
        apply writesAt_idxWrites_nil _ _ _ _ _ Operation.zero
        intro k2 hk2
        rw [writesAt_single, if_neg]
        rintro ⟨h1, -⟩
        omega)]
    rw [Nat.sub_zero]
    by_cases hc : c0 ≤ c ∧ c < c0 + ((block.getD (r - r0) []).length)
    · rw [writesAt_idxWrites_unique _ _ 0 (c - c0) _ _ Operation.zero (Nat.zero_le _)
        (by omega)
        (by
          intro k2 hk2 hne
          rw [writesAt_single, if_neg]
          rintro ⟨-, h2⟩
          omega)]
      rw [Nat.sub_zero, writesAt_single,
        if_pos ⟨by omega, by omega⟩, if_pos ⟨hr.1, hr.2, hc.1, hc.2⟩]
    · rw [writesAt_idxWrites_nil _ _ _ _ _ Operation.zero
        (by
          intro k2 hk2
          rw [writesAt_single, if_neg]
          rintro ⟨-, h2⟩
          omega)]
      rw [if_neg]
      rintro ⟨h1, h2, h3, h4⟩
      exact hc ⟨h3, h4⟩
  · rw [writesAt_idxWrites_nil _ _ _ _ _ []
      (by
        intro k hk
        apply writesAt_idxWrites_nil _ _ _ _ _ Operation.zero
        intro k2 hk2
        rw [writesAt_single, if_neg]
        rintro ⟨h1, -⟩
        omega)]
    rw [if_neg]
    rintro ⟨h1, h2, -, -⟩
    exact hr ⟨h1, h2⟩

theorem mget_form_a_G (c : Container) (n m i j : Nat)
    (hi : i < n) (hj : j < n) :
    mget (form_a_matrix c n m) i j = mget (form_g_matrix c n) i j := by
  have hb1 : i < n + m := by omega
  have hb2 : j < n + m := by omega
  rw [form_a_matrix]
  rw [mget_applyWrites _ _ _ _ (by rw [length_zeros]; exact hb1)
    (by rw [rowlen_zeros _ _ _ hb1]; exact hb2)]
  rw [writesAt_append, writesAt_append, writesAt_append]
  rw [writesAt_blockWrites, writesAt_blockWrites, writesAt_blockWrites,
    writesAt_blockWrites]
  rw [length_form_g, length_form_b, length_form_c, length_form_d]
  rw [Nat.sub_zero, Nat.sub_zero, rowlen_form_g c n i hi]
  rw [if_pos ⟨Nat.zero_le i, by omega, Nat.zero_le j, by omega⟩]
  rw [if_neg (by rintro ⟨-, -, h3, -⟩; omega)]
  rw [if_neg (by rintro ⟨h1, -, -, -⟩; omega)]
  rw [if_neg (by rintro ⟨h1, -, -, -⟩; omega)]
  simp [mget]

theorem mget_form_a_B (c : Container) (n m i j : Nat)
    (hi : i < n) (hj : j < m) :
    mget (form_a_matrix c n m) i (n + j) = mget (form_b_matrix c n m) i j := by
  have hb1 : i < n + m := by omega
  have hb2 : n + j < n + m := by omega
  rw [form_a_matrix]
  rw [mget_applyWrites _ _ _ _ (by rw [length_zeros]; exact hb1)
    (by rw [rowlen_zeros _ _ _ hb1]; exact hb2)]
  rw [writesAt_append, writesAt_append, writesAt_append]
  rw [writesAt_blockWrites, writesAt_blockWrites, writesAt_blockWrites,
    writesAt_blockWrites]
  rw [length_form_g, length_form_b, length_form_c, length_form_d]
  rw [Nat.sub_zero, Nat.sub_zero, rowlen_form_g c n i hi,
    rowlen_form_b c n m i hi, Nat.add_sub_cancel_left]
  rw [if_neg (by rintro ⟨-, -, -, h4⟩; omega)]
  rw [if_pos ⟨Nat.zero_le i, by omega, by omega, by omega⟩]
  rw [if_neg (by rintro ⟨h1, -, -, -⟩; omega)]
  rw [if_neg (by rintro ⟨h1, -, -, -⟩; omega)]
  simp [mget]

theorem mget_form_a_C (c : Container) (n m i j : Nat)
    (hi : i < m) (hj : j < n) :
    mget (form_a_matrix c n m) (n + i) j = mget (form_c_matrix c n m) i j := by
  have hb1 : n + i < n + m := by omega
  have hb2 : j < n + m := by omega
  rw [form_a_matrix]
  rw [mget_applyWrites _ _ _ _ (by rw [length_zeros]; exact hb1)
    (by rw [rowlen_zeros _ _ _ hb1]; exact hb2)]
  rw [writesAt_append, writesAt_append, writesAt_append]
  rw [writesAt_blockWrites, writesAt_blockWrites, writesAt_blockWrites,
    writesAt_blockWrites]
  rw [length_form_g, length_form_b, length_form_c, length_form_d]
  rw [Nat.sub_zero, Nat.sub_zero, Nat.add_sub_cancel_left,
    rowlen_form_c c n m i hi]
  rw [if_neg (by rintro ⟨-, h2, -, -⟩; omega)]
  rw [if_neg (by rintro ⟨-, h2, -, -⟩; omega)]
  rw [if_pos ⟨by omega, by omega, Nat.zero_le j, by omega⟩]
  rw [if_neg (by rintro ⟨-, -, h3, -⟩; omega)]
  simp [mget]

theorem mget_form_a_D (c : Container) (n m i j : Nat)
    (hi : i < m) (hj : j < m) :
    mget (form_a_matrix c n m) (n + i) (n + j) = mget (form_d_matrix c m) i j := by
  have hb1 : n + i < n + m := by omega
  have hb2 : n + j < n + m := by omega
  rw [form_a_matrix]
  rw [mget_applyWrites _ _ _ _ (by rw [length_zeros]; exact hb1)
    (by rw [rowlen_zeros _ _ _ hb1]; exact hb2)]
  rw [writesAt_append, writesAt_append, writesAt_append]
  rw [writesAt_blockWrites, writesAt_blockWrites, writesAt_blockWrites,
    writesAt_blockWrites]
  rw [length_form_g, length_form_b, length_form_c, length_form_d]
  rw [Nat.sub_zero, Nat.sub_zero, Nat.add_sub_cancel_left, Nat.add_sub_cancel_left,
    rowlen_form_c c n m i hi, rowlen_form_d c m i hi]
  rw [if_neg (by rintro ⟨-, h2, -, -⟩; omega)]
  rw [if_neg (by rintro ⟨-, h2, -, -⟩; omega)]
  rw [if_neg (by rintro ⟨-, -, -, h4⟩; omega)]
  rw [if_pos ⟨by omega, by omega, by omega, by omega⟩]
  simp [mget]

theorem mget_mtranspose (mat : Matrix2) (r c i j : Nat)
    (hi : i < r) (hj : j < c) :
    mget (mtranspose mat r c) j i = mget mat i j := by
  unfold mget mtranspose
  rw [getD_range_map _ _ _ _ hj, getD_range_map _ _ _ _ hi]
  rfl

-- ## The spec-side description of the off-diagonal G terms

/-- The negated reciprocal term contributed by a bridging resistor. -/
def negRecip (e : Element) : Operation :=
  Operation.Negate (some (Operation.Divide (some (Operation.Value 1))
    (some (Operation.Variable (elementRepr e)))))

/-- The claim's phrasing of the off-diagonal term list: one negated reciprocal
term for every resistor of node i that also appears (as a resistor, by id) in
node j's member set. -/
def bridgeSet (tool tool2 : Node) : List Operation :=
  (tool.members.filter (fun e => e.cls == Component.Resistor &&
    tool2.members.any (fun e2 => e2.cls == Component.Resistor && e2.id == e.id))).map
    negRecip


theorem filterMap_if_id_single (e : Element) (t : Operation) (l : List Element)
    (hnd : ((l.filter (fun x => x.cls == Component.Resistor)).map
      (fun x => x.id)).Nodup) :
    (l.filterMap (fun e2 =>
        if e2.cls == Component.Resistor && e2.id == e.id then some t else none)) =
      (if l.any (fun e2 => e2.cls == Component.Resistor && e2.id == e.id) then [t]
       else []) := by
  induction l with
  | nil => rfl
  | cons x rest ih =>
    rw [List.filter_cons] at hnd
    by_cases hx : (x.cls == Component.Resistor && x.id == e.id) = true
    · obtain ⟨hxr, hxid⟩ : (x.cls == Component.Resistor) = true ∧
          (x.id == e.id) = true := Bool.and_eq_true _ _ ▸ hx
      rw [if_pos hxr, List.map_cons, List.nodup_cons] at hnd
      have hnone : ∀ y ∈ rest,
          (if y.cls == Component.Resistor && y.id == e.id then some t else none)
            = none := by
        intro y hy
        rw [if_neg]
        intro hyc
        obtain ⟨hyr, hyid⟩ : (y.cls == Component.Resistor) = true ∧
            (y.id == e.id) = true := Bool.and_eq_true _ _ ▸ hyc
        have hyide : y.id = e.id := by simpa using hyid
        have hxide : x.id = e.id := by simpa using hxid
        exact hnd.1 (List.mem_map.mpr ⟨y, List.mem_filter.mpr ⟨hy, hyr⟩,
          by rw [hyide, hxide]⟩)
      simp only [List.filterMap_cons, if_pos hx, List.any_cons, hx, Bool.true_or,
        if_true]
      rw [List.filterMap_eq_nil_iff.mpr hnone]
    · have hrest : ((rest.filter (fun x => x.cls == Component.Resistor)).map
          (fun x => x.id)).Nodup := by
        by_cases hxr : (x.cls == Component.Resistor) = true
        · rw [if_pos hxr, List.map_cons, List.nodup_cons] at hnd
          exact hnd.2
        · rw [if_neg hxr] at hnd
          exact hnd
      rw [Bool.not_eq_true] at hx
      simp only [List.filterMap_cons, hx, List.any_cons, Bool.false_or,
        Bool.false_eq_true, if_false]
      exact ih hrest

/-- The code's nested pair loop produces exactly the spec's "one term per
resistor present in both member sets", provided node j's resistor members have
pairwise distinct ids (the spec's member *sets*). -/
theorem gOffSet_eq_bridgeSet (tool tool2 : Node)
    (hnd : ((tool2.members.filter (fun x => x.cls == Component.Resistor)).map
      (fun x => x.id)).Nodup) :
    gOffSet tool tool2 = bridgeSet tool tool2 := by
  rw [gOffSet, bridgeSet]
  induction tool.members with
  | nil => rfl
  | cons e rest ih =>
    rw [List.flatMap_cons, List.filter_cons]
    by_cases her : (e.cls == Component.Resistor) = true
    · rw [if_pos her, filterMap_if_id_single e _ _ hnd]
      by_cases hany : (tool2.members.any
          (fun e2 => e2.cls == Component.Resistor && e2.id == e.id)) = true
      · have hcond : (e.cls == Component.Resistor && tool2.members.any
            (fun e2 => e2.cls == Component.Resistor && e2.id == e.id)) = true := by
          rw [her, hany]
          rfl
        rw [if_pos hany, if_pos hcond, List.map_cons, ih]
        rfl
      · have hcond : (e.cls == Component.Resistor && tool2.members.any
            (fun e2 => e2.cls == Component.Resistor && e2.id == e.id)) = false := by
          rw [Bool.not_eq_true] at hany
          rw [hany, Bool.and_false]
        rw [if_neg hany, if_neg (by rw [hcond]; exact Bool.false_ne_true), ih,
          List.nil_append]
    · have hcond : (e.cls == Component.Resistor && tool2.members.any
          (fun e2 => e2.cls == Component.Resistor && e2.id == e.id)) = false := by
        rw [Bool.not_eq_true] at her
        rw [her, Bool.false_and]
      rw [if_neg her, if_neg (by rw [hcond]; exact Bool.false_ne_true), ih,
        List.nil_append]

-- ## Source-count comparison

theorem foldl_sourceCount_ge (l : List Element) (acc : Nat) :
    acc + (l.filter (fun x => x.cls == Component.VoltageSrc)).length ≤
      l.foldl (fun acc x =>
        match x.cls with
        | Component.VoltageSrc | Component.CurrentSrc => acc + 1
        | _ => acc) acc := by
  induction l generalizing acc with
  | nil => simp
  | cons x rest ih =>
    rw [List.foldl_cons, List.filter_cons]
    cases hx : x.cls with
    | Resistor =>
      simp only [hx]
      have : (Component.Resistor == Component.VoltageSrc) = false := rfl
      rw [this]
      simpa using ih acc
    | VoltageSrc =>
      simp only [hx]
      have : (Component.VoltageSrc == Component.VoltageSrc) = true := rfl
      rw [this]
      have := ih (acc + 1)
      simp only [if_true, List.length_cons]
      omega
    | CurrentSrc =>
      simp only [hx]
      have : (Component.CurrentSrc == Component.VoltageSrc) = false := rfl
      rw [this]
      have := ih (acc + 1)
      simp only [Bool.false_eq_true, if_false]
      omega

/-- The solver's source count is at least the voltage-source count (it also
counts current sources). -/
theorem vs_le_sourceCount (c : Container) :
    (Container.get_voltage_sources c).length ≤ sourceCount c := by
  have := foldl_sourceCount_ge c.elements 0
  simpa [sourceCount, Container.get_elements, Container.get_voltage_sources]
    using this

-- ## Concrete example circuits used by witnesses and counterexamples

/-- A resistor (id 1, 100 Ω). -/
def eR1 : Element := ⟨1, Component.Resistor, 100, [], []⟩

/-- A resistor (id 2, 200 Ω). -/
def eR2 : Element := ⟨2, Component.Resistor, 200, [], []⟩

/-- A voltage source (id 4, 32 V) whose positive set holds terminal id 1. -/
def eV4 : Element := ⟨4, Component.VoltageSrc, 32, [1], [2]⟩

/-- A current source (id 6, 3 A). -/
def eI6 : Element := ⟨6, Component.CurrentSrc, 3, [2], [1]⟩

/-- First example node. -/
def nW1 : Node := ⟨1, [eR1, eV4]⟩

/-- Second example node: bridged to the first by eR1. -/
def nW2 : Node := ⟨2, [eR1, eR2, eV4, eI6]⟩

/-- A small built container used as the concrete witness circuit. -/
def cW : Container := ⟨[eR1, eR2, eV4, eI6], [nW1, nW2]⟩

/-- A lone current source. -/
def eIbug : Element := ⟨1, Component.CurrentSrc, 2, [2], []⟩

/-- A container holding one current source and no voltage source: the input on
which the solver's source count departs from the voltage-source count. -/
def cBug : Container := ⟨[eIbug], [⟨1, [eIbug]⟩]⟩

/-- A container with two nodes and no elements, used to exhibit the X/Z node
row ordering. -/
def cSeven : Container := ⟨[], [⟨1, []⟩, ⟨2, []⟩]⟩

-- ## Claim theorems

/-- C1 (code bug evidence): on a container holding a single current source and
no voltage source, the solver's "Source Count" fold (`NodeSolver::new`, lines
22-29) yields m = 1 — it counts the current source — while the voltage-source
count is 0, and this m is what sizes the solver's A matrix (2×2 instead of the
1×1 the claim prescribes). -/
theorem c1_source_count_includes_current_sources :
    sourceCount cBug = 1
    ∧ (Container.get_voltage_sources cBug).length = 0
    ∧ ((NodeSolver.new cBug).a_matrix).length = cBug.nodes.length + sourceCount cBug
    ∧ ((NodeSolver.new cBug).a_matrix).length ≠
        cBug.nodes.length + (Container.get_voltage_sources cBug).length := by
  refine ⟨rfl, rfl, rfl, ?_⟩
  decide

/-- C2 (counterexample): the claim sizes A as (n+m)×(n+m) with m the number of
voltage-source elements; on the container with one node and one current source
the assembled A matrix is 2×2, not (1+0)×(1+0). -/
theorem c2_counterexample :
    ((NodeSolver.new cBug).a_matrix).length ≠
      cBug.nodes.length + (Container.get_voltage_sources cBug).length := by
  decide

/-- C2 (amended): with s the count the solver actually uses (its source fold,
which includes current sources), A is (n+s)×(n+s), Z and X are (n+s)×1, and
A's four quadrants equal G, B, C and D cell for cell. -/
theorem c2_amended_shapes_and_quadrants (c : Container) :
    ((NodeSolver.new c).a_matrix).length = c.nodes.length + sourceCount c
    ∧ (∀ r, r < c.nodes.length + sourceCount c →
        (((NodeSolver.new c).a_matrix).getD r []).length =
          c.nodes.length + sourceCount c)
    ∧ ((NodeSolver.new c).z_matrix).length = c.nodes.length + sourceCount c
    ∧ (∀ r, r < c.nodes.length + sourceCount c →
        (((NodeSolver.new c).z_matrix).getD r []).length = 1)
    ∧ ((NodeSolver.new c).x_matrix).length = c.nodes.length + sourceCount c
    ∧ (∀ r, r < c.nodes.length + sourceCount c →
        (((NodeSolver.new c).x_matrix).getD r []).length = 1)
    ∧ (∀ i j, i < c.nodes.length → j < c.nodes.length →
        mget ((NodeSolver.new c).a_matrix) i j =
          mget (form_g_matrix c c.nodes.length) i j)
    ∧ (∀ i j, i < c.nodes.length → j < sourceCount c →
        mget ((NodeSolver.new c).a_matrix) i (c.nodes.length + j) =
          mget (form_b_matrix c c.nodes.length (sourceCount c)) i j)
    ∧ (∀ i j, i < sourceCount c → j < c.nodes.length →
        mget ((NodeSolver.new c).a_matrix) (c.nodes.length + i) j =
          mget (form_c_matrix c c.nodes.length (sourceCount c)) i j)
    ∧ (∀ i j, i < sourceCount c → j < sourceCount c →
        mget ((NodeSolver.new c).a_matrix) (c.nodes.length + i) (c.nodes.length + j) =
          mget (form_d_matrix c (sourceCount c)) i j) := by
  have ha : (NodeSolver.new c).a_matrix =
      form_a_matrix c c.nodes.length (sourceCount c) := rfl
  have hz : (NodeSolver.new c).z_matrix =
      form_z_matrix c c.nodes.length (sourceCount c) := rfl
  have hx : (NodeSolver.new c).x_matrix =
      form_x_matrix c c.nodes.length (sourceCount c) := rfl
  rw [ha, hz, hx]
  refine ⟨length_form_a c _ _, fun r hr => rowlen_form_a c _ _ r hr,
    length_form_z c _ _, fun r hr => rowlen_form_z c _ _ r hr,
    length_form_x c _ _, fun r hr => rowlen_form_x c _ _ r hr,
    fun i j hi hj => mget_form_a_G c _ _ i j hi hj,
    fun i j hi hj => mget_form_a_B c _ _ i j hi hj,
    fun i j hi hj => mget_form_a_C c _ _ i j hi hj,
    fun i j hi hj => mget_form_a_D c _ _ i j hi hj⟩

/-- C2 witness: the amended theorem applied to the concrete circuit cW,
discharging the bound hypotheses there. -/
theorem c2_amended_witness :
    (0 : Nat) < cW.nodes.length
    ∧ (0 : Nat) < sourceCount cW
    ∧ ((NodeSolver.new cW).a_matrix).length = cW.nodes.length + sourceCount cW
    ∧ mget ((NodeSolver.new cW).a_matrix) 0 (cW.nodes.length + 0) =
        mget (form_b_matrix cW cW.nodes.length (sourceCount cW)) 0 0 :=
  ⟨by decide, by decide, (c2_amended_shapes_and_quadrants cW).1,
    (c2_amended_shapes_and_quadrants cW).2.2.2.2.2.2.2.1 0 0 (by decide) (by decide)⟩

/-- C9: the matrix-strategy solve emits exactly the six steps, in order: the A
matrix, Z, X, the "TODO" placeholder for the unimplemented inverse (never a
numerically inverted matrix), and the two Final Equation steps whose text is
built from the canonical renderings of X, A and Z. -/
theorem c9_solve_steps (s : NodeSolver) :
    NodeSolver.solve s = Except.ok
      [⟨"A Matrix", some [Operation.MatrixVariable s.a_matrix]⟩,
       ⟨"Z Matrix", some [Operation.MatrixVariable s.z_matrix]⟩,
       ⟨"X Matrix", some [Operation.MatrixVariable s.x_matrix]⟩,
       ⟨"Inverse A Matrix", some [Operation.Text ("TODO")]⟩,
       ⟨"Final Equation", some []⟩,
       ⟨"Final Equation", some [Operation.Text
         (matrix_to_latex s.x_matrix ++ " = " ++ matrix_to_latex s.a_matrix
           ++ "^\x7b-1\x7d * " ++ matrix_to_latex s.z_matrix)]⟩] := rfl

/-- C10: the matrix-strategy solve is infallible — for every constructed
solver it returns Ok with exactly six steps, never the Err branch. -/
theorem c10_solve_infallible (s : NodeSolver) :
    ∃ steps, NodeSolver.solve s = Except.ok steps ∧ steps.length = 6 :=
  ⟨_, rfl, rfl⟩

/-- C3: in the G matrix over the id-sorted nodes, the diagonal cell
(n-i-1, n-i-1) is the sum of symbolic 1/R terms over the resistors of node i,
the off-diagonal cell (n-i-1, n-j-1) is the sum of one negated 1/R term per
resistor present in both node i's and node j's member sets (stated through
`bridgeSet`, the spec's phrasing; equal to the code's pair loop for member
sets with distinct resistor ids), and with no bridging resistor the cell is
the empty sum. -/
theorem c3_g_matrix_cells (c : Container) (n i j : Nat)
    (hn : c.nodes.length = n) (hi : i < n) (hj : j < n) (hij : i ≠ j)
    (hnd : ((((sortNodes c.nodes).getD j dNode).members.filter
      (fun x => x.cls == Component.Resistor)).map (fun x => x.id)).Nodup) :
    mget (form_g_matrix c n) (n - i - 1) (n - i - 1) =
      Operation.Sum (gDiagSet ((sortNodes c.nodes).getD i dNode))
    ∧ mget (form_g_matrix c n) (n - i - 1) (n - j - 1) =
      Operation.Sum (bridgeSet ((sortNodes c.nodes).getD i dNode)
        ((sortNodes c.nodes).getD j dNode))
    ∧ ((∀ e ∈ ((sortNodes c.nodes).getD i dNode).members,
          e.cls = Component.Resistor →
          ∀ e2 ∈ ((sortNodes c.nodes).getD j dNode).members,
            e2.cls = Component.Resistor → e2.id ≠ e.id) →
      mget (form_g_matrix c n) (n - i - 1) (n - j - 1) = Operation.Sum []) := by
  refine ⟨mget_form_g_diag c n i hn hi, ?_, ?_⟩
  · rw [mget_form_g_off c n i j hn hi hj hij, gOffSet_eq_bridgeSet _ _ hnd]
  · intro hnb
    rw [mget_form_g_off c n i j hn hi hj hij, gOffSet_eq_bridgeSet _ _ hnd]
    have hfil : (((sortNodes c.nodes).getD i dNode).members.filter
        (fun e => e.cls == Component.Resistor &&
          ((sortNodes c.nodes).getD j dNode).members.any
            (fun e2 => e2.cls == Component.Resistor && e2.id == e.id))) = [] := by
      rw [List.filter_eq_nil_iff]
      intro e he hp
      obtain ⟨her, hany⟩ : (e.cls == Component.Resistor) = true ∧ _ = true :=
        Bool.and_eq_true _ _ ▸ hp
      obtain ⟨e2, he2, hp2⟩ := List.any_eq_true.mp hany
      obtain ⟨he2r, he2id⟩ : (e2.cls == Component.Resistor) = true ∧ _ = true :=
        Bool.and_eq_true _ _ ▸ hp2
      exact hnb e he (by simpa using her) e2 he2 (by simpa using he2r)
        (by simpa using he2id)
    rw [bridgeSet, hfil]
    rfl

/-- C3 witness: the G cell theorem applied to the concrete circuit cW. -/
theorem c3_witness :
    cW.nodes.length = 2 ∧ (0 : Nat) < 2 ∧ (1 : Nat) < 2 ∧ (0 : Nat) ≠ 1
    ∧ ((((sortNodes cW.nodes).getD 1 dNode).members.filter
        (fun x => x.cls == Component.Resistor)).map (fun x => x.id)).Nodup
    ∧ mget (form_g_matrix cW 2) 1 1 =
        Operation.Sum (gDiagSet ((sortNodes cW.nodes).getD 0 dNode)) :=
  ⟨rfl, by decide, by decide, by decide, by decide,
    (c3_g_matrix_cells cW 2 0 1 rfl (by decide) (by decide) (by decide)
      (by decide)).1⟩

/-- C4: in the B matrix, a node i touching voltage source j gets, at cell
(n-i-1, j), -1 when the source's positive set holds the node's first recorded
member's id and +1 otherwise; a node not touching the source keeps the
zero-initialized default cell. -/
theorem c4_b_matrix_cells (c : Container) (n m i j : Nat)
    (hn : c.nodes.length = n) (hi : i < n)
    (hj : j < (Container.get_voltage_sources c).length)
    (hm : (Container.get_voltage_sources c).length ≤ m) :
    ((c.nodes.getD i dNode).contains
        ((Container.get_voltage_sources c).getD j dElem) = true →
      mget (form_b_matrix c n m) (n - i - 1) j =
        (if ((Container.get_voltage_sources c).getD j dElem).positive.contains
            (firstMemberId (c.nodes.getD i dNode)) then Operation.Value (-1)
         else Operation.Value 1))
    ∧ ((c.nodes.getD i dNode).contains
        ((Container.get_voltage_sources c).getD j dElem) = false →
      mget (form_b_matrix c n m) (n - i - 1) j = Operation.zero) := by
  constructor
  · intro hcont
    rw [mget_form_b_cell c n m i j hn hi hj hm, if_pos hcont]
    rfl
  · intro hcont
    rw [mget_form_b_cell c n m i j hn hi hj hm,
      if_neg (by rw [hcont]; exact Bool.false_ne_true)]

/-- C4 witness: the B cell theorem applied to the concrete circuit cW. -/
theorem c4_witness :
    cW.nodes.length = 2 ∧ (0 : Nat) < 2
    ∧ (0 : Nat) < (Container.get_voltage_sources cW).length
    ∧ (Container.get_voltage_sources cW).length ≤ 1
    ∧ (cW.nodes.getD 0 dNode).contains
        ((Container.get_voltage_sources cW).getD 0 dElem) = true
    ∧ mget (form_b_matrix cW 2 1) 1 0 =
        (if ((Container.get_voltage_sources cW).getD 0 dElem).positive.contains
            (firstMemberId (cW.nodes.getD 0 dNode)) then Operation.Value (-1)
         else Operation.Value 1) :=
  ⟨rfl, by decide, by decide, by decide, by decide,
    (c4_b_matrix_cells cW 2 1 0 0 rfl (by decide) (by decide) (by decide)).1
      (by decide)⟩

/-- C5: in the solver's Z vector, node row i holds the sum of the literal
values of the node's current-source members and stays at the zero default
when the node touches none (no empty sum is written); row n+j holds voltage
source j's literal value. -/
theorem c5_z_vector_rows (c : Container) (i j : Nat)
    (hi : i < c.nodes.length)
    (hj : j < (Container.get_voltage_sources c).length) :
    ((currentVals (c.nodes.getD i dNode)).length ≠ 0 →
      mget ((NodeSolver.new c).z_matrix) i 0 =
        Operation.Sum (currentVals (c.nodes.getD i dNode)))
    ∧ ((currentVals (c.nodes.getD i dNode)).length = 0 →
      mget ((NodeSolver.new c).z_matrix) i 0 = Operation.zero)
    ∧ mget ((NodeSolver.new c).z_matrix) (c.nodes.length + j) 0 =
        Operation.Value (((Container.get_voltage_sources c).getD j dElem).value) := by
  have hz : (NodeSolver.new c).z_matrix =
      form_z_matrix c c.nodes.length (sourceCount c) := rfl
  rw [hz]
  refine ⟨?_, ?_, ?_⟩
  · intro hne
    rw [mget_form_z_Irow c _ _ i rfl hi, if_neg hne]
  · intro he
    rw [mget_form_z_Irow c _ _ i rfl hi, if_pos he]
  · exact mget_form_z_Erow c _ _ j rfl hj (vs_le_sourceCount c)

/-- C5 witness: the Z row theorem applied to the concrete circuit cW. -/
theorem c5_witness :
    (1 : Nat) < cW.nodes.length
    ∧ (0 : Nat) < (Container.get_voltage_sources cW).length
    ∧ (currentVals (cW.nodes.getD 1 dNode)).length ≠ 0
    ∧ mget ((NodeSolver.new cW).z_matrix) 1 0 =
        Operation.Sum (currentVals (cW.nodes.getD 1 dNode))
    ∧ mget ((NodeSolver.new cW).z_matrix) (cW.nodes.length + 0) 0 =
        Operation.Value (((Container.get_voltage_sources cW).getD 0 dElem).value) :=
  ⟨by decide, by decide, by decide,
    (c5_z_vector_rows cW 1 0 (by decide) (by decide)).1 (by decide),
    (c5_z_vector_rows cW 1 0 (by decide) (by decide)).2.2⟩

/-- C6: the C matrix is the transpose of the B matrix, cell for cell, and
hence renders identically cell for cell. -/
theorem c6_c_transposes_b (c : Container) (n m i j : Nat)
    (hi : i < n) (hj : j < m) :
    mget (form_c_matrix c n m) j i = mget (form_b_matrix c n m) i j
    ∧ equation_repr (mget (form_c_matrix c n m) j i) =
        equation_repr (mget (form_b_matrix c n m) i j) := by
  have h : mget (form_c_matrix c n m) j i = mget (form_b_matrix c n m) i j := by
    rw [form_c_matrix]
    exact mget_mtranspose (form_b_matrix c n m) n m i j hi hj
  exact ⟨h, by rw [h]⟩

/-- C6 witness: the transpose law applied to the concrete circuit cW. -/
theorem c6_witness :
    (0 : Nat) < 2 ∧ (0 : Nat) < 1
    ∧ mget (form_c_matrix cW 2 1) 0 0 = mget (form_b_matrix cW 2 1) 0 0 :=
  ⟨by decide, by decide, (c6_c_transposes_b cW 2 1 0 0 (by decide) (by decide)).1⟩

/-- C7 (counterexample): the claim says reversed-discovery order holds
uniformly, including the node rows of X — so on a two-node container row 0 of
X would hold the last (highest-id) node's label.  The code writes X node rows
in direct order: row 0 holds the first node's label, which differs from the
last node's label. -/
theorem c7_counterexample :
    mget (form_x_matrix cSeven 2 0) 0 0 = nodeVar (cSeven.nodes.getD 0 dNode)
    ∧ mget (form_x_matrix cSeven 2 0) 0 0 ≠ nodeVar (cSeven.nodes.getD 1 dNode) := by
  constructor
  · rfl
  · intro h
    have h2 : Operation.Variable ⟨"Node: " ++ toString (1 : Nat), 0⟩ =
        Operation.Variable ⟨"Node: " ++ toString (2 : Nat), 0⟩ := h
    injection h2 with h3
    injection h3 with h4 h5
    exact absurd h4 (by decide)

/-- C7 (amended): the reversal n-i-1 over the id-sorted nodes governs the G
matrix rows/columns, but the node rows of the X and Z vectors use direct
enumeration order: node i sits at row i there. -/
theorem c7_amended_ordering (c : Container) (n m i : Nat)
    (hn : c.nodes.length = n) (hi : i < n) :
    mget (form_g_matrix c n) (n - i - 1) (n - i - 1) =
      Operation.Sum (gDiagSet ((sortNodes c.nodes).getD i dNode))
    ∧ mget (form_x_matrix c n m) i 0 = nodeVar (c.nodes.getD i dNode)
    ∧ mget (form_z_matrix c n m) i 0 =
        (if (currentVals (c.nodes.getD i dNode)).length = 0 then Operation.zero
         else Operation.Sum (currentVals (c.nodes.getD i dNode))) :=
  ⟨mget_form_g_diag c n i hn hi, mget_form_x_Vrow c n m i hn hi,
    mget_form_z_Irow c n m i hn hi⟩

/-- C7 amended witness: the ordering theorem applied to the circuit cW. -/
theorem c7_amended_witness :
    cW.nodes.length = 2 ∧ (0 : Nat) < 2
    ∧ mget (form_x_matrix cW 2 0) 0 0 = nodeVar (cW.nodes.getD 0 dNode) :=
  ⟨rfl, by decide, (c7_amended_ordering cW 2 0 0 rfl (by decide)).2.1⟩

/-- C8: the non-nodal (mesh) path of the public solve entry point never
returns Ok — no empty or fabricated step list — and, for a container passing
validation, fails with exactly the mesh error, whose text contains
"not implemented". -/
theorem c8_mesh_solve_not_implemented
    (stepSolver : Container → Except String (List Step))
    (matrix : Bool) (setup : List Element) :
    (∀ steps, solveInterface stepSolver matrix false setup ≠ Except.ok steps)
    ∧ ((∃ st, (containerFrom setup).validate = Except.ok st) →
      solveInterface stepSolver matrix false setup =
        Except.error (meshSolveError matrix)
      ∧ ∃ pre post, meshSolveError matrix = pre ++ "not implemented" ++ post) := by
  constructor
  · intro steps
    cases hval : (containerFrom setup).validate with
    | error e => simp [solveInterface, hval]
    | ok st => simp [solveInterface, hval]
  · rintro ⟨st, hval⟩
    constructor
    · simp [solveInterface, hval]
    · refine ⟨(if matrix then "Matrix" else "Step") ++ " Solver ", " for meshes", ?_⟩
      cases matrix <;> rfl

/-- C8 witness: the mesh-path theorem applied to a concrete valid setup and a
trivial external step solver. -/
theorem c8_witness :
    (∃ st, (containerFrom [eR1, eV4]).validate = Except.ok st)
    ∧ solveInterface (fun _ => Except.ok []) true false [eR1, eV4] =
        Except.error (meshSolveError true) :=
  ⟨⟨Status.Valid, rfl⟩,
    ((c8_mesh_solve_not_implemented (fun _ => Except.ok []) true [eR1, eV4]).2
      ⟨Status.Valid, rfl⟩).1⟩
